import Mathlib

/-!
Verification of the GLMNet-style proximal-Hessian coordinate-descent optimizer
from `tensorflow_probability/python/glm/proximal_hessian.py`.

The code is shallowly embedded over exact rationals (`ℚ`).  Floating-point
rounding is idealized away, but the non-finite values (`inf`, `-inf`, `nan`)
that drive the validity masking in `_grad_neg_log_likelihood_and_fim` are
modelled explicitly by the type `FP` below, with IEEE-754 comparison and
arithmetic rules.  The Euclidean norm `‖x_start‖₂` used by the convergence
threshold is irrational in general, so it is carried as an explicit field
(`normXStart`) of the sweep parameters; theorems that depend on its value
constrain it by the hypothesis `normXStart ^ 2 = normSq xStart ∧ 0 ≤ normXStart`.

The `tf.while_loop` combinator is modelled by the fuel-indexed `whileLoop`
below; the fuel is always chosen large enough that the fuel-exhausted result
coincides with the mathematical while-loop result (proved in the trace lemmas).
-/

namespace ProximalHessian

/-! ### Scalar helpers: `tf.sign` and `soft_threshold` -/

/-- Embeds `tf.sign` on rationals: `1` for positive, `-1` for negative, `0` for zero. -/
def signQ (x : ℚ) : ℚ :=
  if 0 < x then 1 else if x < 0 then -1 else 0

/-- Embeds `soft_threshold(x, threshold)` from the source:
`tf.sign(x) * tf.maximum(tf.abs(x) - threshold, 0.)`, elementwise;
here stated for one scalar entry. -/
def soft_threshold (x threshold : ℚ) : ℚ :=
  signQ x * max (|x| - threshold) 0

/-! ### Option-valued scalar helpers

The source treats `l2_regularizer` and `learning_rate` as optional
(`None` means absent) and combines them with `_mul_ignoring_nones`,
`_mul_or_none` and `_add_ignoring_nones`. -/

/-- Embeds `_mul_ignoring_nones(a, b)` for an optional first factor:
a `None` factor is skipped. -/
def mulIgnoringNones (a : Option ℚ) (b : ℚ) : ℚ :=
  match a with
  | none => b
  | some a => a * b

/-- Embeds `_mul_or_none(c, b)`: the product, or `None` if `b` is `None`. -/
def mulOrNone (c : ℚ) (b : Option ℚ) : Option ℚ :=
  match b with
  | none => none
  | some b => some (c * b)

/-- Embeds `_add_ignoring_nones(a, b)` for an optional second summand. -/
def addIgnoringNones (a : ℚ) (b : Option ℚ) : ℚ :=
  match b with
  | none => a
  | some b => a + b

/-! ### An idealized floating-point scalar

`_grad_neg_log_likelihood_and_fim` masks samples whose `grad_mean` or
`variance` is non-finite, and divides by `+inf` to zero out masked samples,
so those inputs are modelled by rationals extended with `inf`, `-inf` and
`nan`.  Arithmetic and comparisons follow IEEE-754 except that finite
arithmetic is exact and the sign of zero is not tracked (`fin 0` plays the
role of `+0`). -/

inductive FP where
  | fin : ℚ → FP
  | inf : FP
  | neginf : FP
  | nan : FP
  deriving DecidableEq

/-- Embeds `tf.is_finite`. -/
def FP.isFinite : FP → Bool
  | .fin _ => true
  | _ => false

/-- Embeds `tf.not_equal(x, 0.)`; note that IEEE `nan != 0` is true. -/
def FP.neqZero : FP → Bool
  | .fin q => decide (q ≠ 0)
  | _ => true

/-- Embeds the IEEE comparison `x > 0.`; false for `nan`. -/
def FP.gtZero : FP → Bool
  | .fin q => decide (0 < q)
  | .inf => true
  | _ => false

/-- Embeds the IEEE comparison `x <= 0.`; false for `nan`. -/
def FP.leZero : FP → Bool
  | .fin q => decide (q ≤ 0)
  | .neginf => true
  | _ => false

/-- IEEE negation. -/
def FP.neg : FP → FP
  | .fin q => .fin (-q)
  | .inf => .neginf
  | .neginf => .inf
  | .nan => .nan

/-- IEEE addition (exact in the finite case). -/
def FP.add : FP → FP → FP
  | .nan, _ => .nan
  | _, .nan => .nan
  | .fin a, .fin b => .fin (a + b)
  | .fin _, .inf => .inf
  | .inf, .fin _ => .inf
  | .fin _, .neginf => .neginf
  | .neginf, .fin _ => .neginf
  | .inf, .inf => .inf
  | .neginf, .neginf => .neginf
  | .inf, .neginf => .nan
  | .neginf, .inf => .nan

/-- IEEE multiplication (exact in the finite case); `0 * inf = nan`. -/
def FP.mul : FP → FP → FP
  | .nan, _ => .nan
  | _, .nan => .nan
  | .fin a, .fin b => .fin (a * b)
  | .fin a, .inf => if a = 0 then .nan else if 0 < a then .inf else .neginf
  | .inf, .fin b => if b = 0 then .nan else if 0 < b then .inf else .neginf
  | .fin a, .neginf => if a = 0 then .nan else if 0 < a then .neginf else .inf
  | .neginf, .fin b => if b = 0 then .nan else if 0 < b then .neginf else .inf
  | .inf, .inf => .inf
  | .inf, .neginf => .neginf
  | .neginf, .inf => .neginf
  | .neginf, .neginf => .inf

/-- IEEE division (exact in the finite case); `finite / inf = 0`,
`inf / inf = nan`, `x / 0` follows the `+0` divisor convention. -/
def FP.div : FP → FP → FP
  | .nan, _ => .nan
  | _, .nan => .nan
  | .fin a, .fin b =>
      if b = 0 then (if a = 0 then .nan else if 0 < a then .inf else .neginf)
      else .fin (a / b)
  | .fin _, .inf => .fin 0
  | .fin _, .neginf => .fin 0
  | .inf, .fin b => if 0 ≤ b then .inf else .neginf
  | .neginf, .fin b => if 0 ≤ b then .neginf else .inf
  | .inf, _ => .nan
  | .neginf, _ => .nan

/-- Extracts the rational value of a finite `FP`; non-finite values map to `0`.
Used only where the surrounding context proves the value is finite. -/
def FP.toRat : FP → ℚ
  | .fin q => q
  | _ => 0

/-! ### The likelihood gradient / curvature adapter
(`_grad_neg_log_likelihood_and_fim`)

The model collaborator returns, for a linear response, the triple
`(mean, variance, grad_mean)`.  The mean is modelled as finite (the masking
under verification inspects only `grad_mean` and `variance`). -/

structure ModelOut (N : ℕ) where
  mean : Fin N → ℚ
  variance : Fin N → FP
  gradMean : Fin N → FP

/-- Embeds `is_valid`: `tf.is_finite(grad_mean) & tf.not_equal(grad_mean, 0.)
& tf.is_finite(variance) & (variance > 0.)`. -/
def isValidSample {N : ℕ} (m : ModelOut N) (i : Fin N) : Bool :=
  (m.gradMean i).isFinite && (m.gradMean i).neqZero &&
    (m.variance i).isFinite && (m.variance i).gtZero

/-- Embeds `_mask_if_invalid(x, mask)`: `tf.where(is_valid, x, fill(mask))`. -/
def maskIfInvalid (valid : Bool) (x rep : FP) : FP :=
  if valid then x else rep

/-- Sum of a list of `FP` values, used for the matvec against a column. -/
def fpSum (l : List FP) : FP :=
  l.foldr FP.add (.fin 0)

/-- Embeds `_sparse_or_dense_matvecmul(X, v, adjoint_a=True)`, i.e. `Xᵗ·v`,
for a rational matrix against an `FP` vector. -/
def fpMatvecT {N n : ℕ} (X : Fin N → Fin n → ℚ) (v : Fin N → FP) : Fin n → FP :=
  fun j => fpSum ((List.finRange N).map fun i => (FP.fin (X i j)).mul (v i))

/-- Embeds `v = (response - mean) * _mask_if_invalid(grad_mean, 1)
/ _mask_if_invalid(variance, np.inf)`. -/
def vVector {N : ℕ} (response : Fin N → ℚ) (m : ModelOut N) : Fin N → FP :=
  fun i =>
    ((FP.fin (response i - m.mean i)).mul
        (maskIfInvalid (isValidSample m i) (m.gradMean i) (.fin 1))).div
      (maskIfInvalid (isValidSample m i) (m.variance i) .inf)

/-- Embeds `fim_middle = _mask_if_invalid(grad_mean, 0.)**2
/ _mask_if_invalid(variance, np.inf)`. -/
def fimMiddle {N : ℕ} (m : ModelOut N) : Fin N → FP :=
  fun i =>
    ((maskIfInvalid (isValidSample m i) (m.gradMean i) (.fin 0)).mul
        (maskIfInvalid (isValidSample m i) (m.gradMean i) (.fin 0))).div
      (maskIfInvalid (isValidSample m i) (m.variance i) .inf)

/-- Embeds `_grad_neg_log_likelihood_and_fim`: returns
`(-(Xᵗ·v), fim_middle)`. -/
def gradNegLogLikelihoodAndFim {N n : ℕ} (X : Fin N → Fin n → ℚ)
    (response : Fin N → ℚ) (m : ModelOut N) : (Fin n → FP) × (Fin N → FP) :=
  (fun j => (fpMatvecT X (vVector response m) j).neg, fimMiddle m)

/-- Concrete adapter input used by witnesses: one sample, one feature,
`variance = -1` (non-positive, hence invalid), `grad_mean = 1`. -/
def exampleModelOut : ModelOut 1 :=
  ⟨fun _ => 0, fun _ => .fin (-1), fun _ => .fin 1⟩

/-! ### The coordinate-descent sweep (`minimize_sparse_one_step`)

Parameters of one sweep.  Vectors have length `n`; the curvature outer
factor has shape `[N, n]`.  `tf.norm(x_start, ord=2)` is irrational in
general, so its value is carried as the field `normXStart`; theorems that
depend on it characterize it against `normSq xStart`. -/

structure SweepParams (N n : ℕ) where
  g : Fin n → ℚ
  Houter : Fin N → Fin n → ℚ
  hmid : Fin N → ℚ
  xStart : Fin n → ℚ
  tolerance : ℚ
  l1 : ℚ
  l2 : Option ℚ
  lr : Option ℚ
  maxSweeps : ℕ
  normXStart : ℚ

/-- Squared Euclidean norm of a rational vector. -/
def normSq {n : ℕ} (x : Fin n → ℚ) : ℚ :=
  ∑ j, x j ^ 2

/-- Embeds `x_update_diff_norm_sq_convergence_threshold
= tolerance * (1. + tf.norm(x_start, ord=2))**2.` -/
def convThreshold {N n : ℕ} (p : SweepParams N n) : ℚ :=
  p.tolerance * (1 + p.normXStart) ^ 2

/-- The loop-carried state of the sweep's `tf.while_loop`:
`[iter, x_update_diff_norm_sq, x_update, hess_matmul_x_update]`. -/
structure SweepState (n : ℕ) where
  iter : ℕ
  diffNormSq : ℚ
  xUpdate : Fin n → ℚ
  hessMatmulXUpdate : Fin n → ℚ

/-- The initial loop state: `iter = 0`, zero accumulator, zero update vector,
zero running curvature product. -/
def initState (n : ℕ) : SweepState n :=
  ⟨0, 0, fun _ => 0, fun _ => 0⟩

/-- Embeds the indexing `hessian_unregularized_loss_middle[coord]` performed
by `_hessian_diag_elt_with_l2`: the length-`N` middle vector is indexed by a
coordinate index below `n` exactly as in the source; an out-of-range index
(possible only when `n > N`, where the source faults) is given the value 0. -/
def hmidAt {N n : ℕ} (p : SweepParams N n) (coord : Fin n) : ℚ :=
  if h : (coord : ℕ) < N then p.hmid ⟨coord, h⟩ else 0

/-- Embeds `_hessian_diag_elt_with_l2(coord)`:
`h_middle[coord] * inner_square(column(H_outer, coord))` plus `2*l2` when L2
is enabled. -/
def hessianDiagEltWithL2 {N n : ℕ} (p : SweepParams N n) (coord : Fin n) : ℚ :=
  addIgnoringNones (hmidAt p coord * ∑ i, p.Houter i coord ^ 2) (mulOrNone 2 p.l2)

/-- Embeds `grad_loss_with_l2 = _add_ignoring_nones(gradient_unregularized_loss,
_mul_or_none(2., l2_regularizer, x_start))`. -/
def gradLossWithL2 {N n : ℕ} (p : SweepParams N n) (j : Fin n) : ℚ :=
  match mulOrNone 2 p.l2 with
  | none => p.g j
  | some c => p.g j + c * p.xStart j

/-- Embeds `w_old = x_start[coord] + x_update[coord]`. -/
def wOldAt {N n : ℕ} (p : SweepParams N n) (s : SweepState n) (coord : Fin n) : ℚ :=
  p.xStart coord + s.xUpdate coord

/-- Embeds `newton_step = -_mul_ignoring_nones(learning_rate,
grad_loss_with_l2[coord] + hess_matmul_x_update[coord]) / second_deriv`. -/
def newtonStepAt {N n : ℕ} (p : SweepParams N n) (s : SweepState n) (coord : Fin n) : ℚ :=
  -(mulIgnoringNones p.lr (gradLossWithL2 p coord + s.hessMatmulXUpdate coord)) /
    hessianDiagEltWithL2 p coord

/-- Embeds `delta = soft_threshold(w_old + newton_step,
_mul_ignoring_nones(learning_rate, l1_regularizer) / second_deriv) - w_old`. -/
def deltaAt {N n : ℕ} (p : SweepParams N n) (s : SweepState n) (coord : Fin n) : ℚ :=
  soft_threshold (wOldAt p s coord + newtonStepAt p s coord)
    (mulIgnoringNones p.lr p.l1 / hessianDiagEltWithL2 p coord) - wOldAt p s coord

/-- Embeds `hessian_column_with_l2`: `Hᵗ·diag(h_mid)·H[:,coord]`, plus the
one-hot injection of `2*l2` at `coord` when L2 is enabled. -/
def hessianColumnWithL2 {N n : ℕ} (p : SweepParams N n) (coord j : Fin n) : ℚ :=
  (∑ i, p.Houter i j * (p.hmid i * p.Houter i coord)) +
    (match p.l2 with
     | none => 0
     | some c => if j = coord then 2 * c else 0)

/-- Embeds the reset `x_update_diff_norm_sq = tf.where(tf.equal(coord, 0),
zeros, x_update_diff_norm_sq)` executed at the start of every loop body. -/
def resetDiffNormSq {n : ℕ} (s : SweepState n) : ℚ :=
  if s.iter % n = 0 then 0 else s.diffNormSq

/-- One execution of `_loop_body` at a given coordinate: the accumulator
reset, then either the `delta == 0` skip or the full update (scatter into
`x_update`, accumulate `delta**2`, add `delta *` the curvature column). -/
def sweepStepAux {N n : ℕ} (p : SweepParams N n) (s : SweepState n) (coord : Fin n) :
    SweepState n :=
  if deltaAt p s coord = 0 then
    ⟨s.iter + 1, resetDiffNormSq s, s.xUpdate, s.hessMatmulXUpdate⟩
  else
    ⟨s.iter + 1, resetDiffNormSq s + deltaAt p s coord ^ 2,
      Function.update s.xUpdate coord (s.xUpdate coord + deltaAt p s coord),
      fun j => s.hessMatmulXUpdate j + deltaAt p s coord * hessianColumnWithL2 p coord j⟩

/-- Embeds `_loop_body`, with `coord = iter % dims`.  Defined (as the
identity) also for `n = 0`, where the source's `iter % dims` faults. -/
def sweepStep {N n : ℕ} (p : SweepParams N n) (s : SweepState n) : SweepState n :=
  if h : 0 < n then sweepStepAux p s ⟨s.iter % n, Nat.mod_lt _ h⟩ else s

/-- Embeds `converged = sweep_complete & small_delta` from `_loop_cond`:
a positive multiple of `n` iterations have run and the accumulator is below
the threshold. -/
def boundaryConverged {N n : ℕ} (p : SweepParams N n) (s : SweepState n) : Prop :=
  (0 < s.iter ∧ s.iter % n = 0) ∧ s.diffNormSq < convThreshold p

instance {N n : ℕ} (p : SweepParams N n) : DecidablePred (boundaryConverged p) :=
  fun _ => by unfold boundaryConverged; infer_instance

/-- Embeds `_loop_cond`: `allowed_more_iterations & ~converged`. -/
def sweepCond {N n : ℕ} (p : SweepParams N n) (s : SweepState n) : Prop :=
  s.iter < p.maxSweeps * n ∧ ¬boundaryConverged p s

instance {N n : ℕ} (p : SweepParams N n) : DecidablePred (sweepCond p) :=
  fun _ => by unfold sweepCond; infer_instance

/-- Fuel-indexed model of `tf.while_loop(cond, body)`: runs `f` while `c`
holds, for at most `fuel` steps. -/
def whileLoop {σ : Type*} (c : σ → Prop) [DecidablePred c] (f : σ → σ) : ℕ → σ → σ
  | 0, s => s
  | fuel + 1, s => if c s then whileLoop c f fuel (f s) else s

/-- The sweep's `tf.while_loop`.  The fuel `maxSweeps * n` is exact: the
condition forces `iter < maximum_full_sweeps * dims` and each body execution
increments `iter` by one. -/
def sweepRun {N n : ℕ} (p : SweepParams N n) : SweepState n :=
  whileLoop (sweepCond p) (sweepStep p) (p.maxSweeps * n) (initState n)

/-- Embeds `minimize_sparse_one_step`: returns `x_start + x_update`, the
recomputed convergence flag `x_update_diff_norm_sq < threshold`, and
`iter / dims`. -/
def minimize_sparse_one_step {N n : ℕ} (p : SweepParams N n) :
    (Fin n → ℚ) × Bool × ℕ :=
  ((fun j => p.xStart j + (sweepRun p).xUpdate j),
    decide ((sweepRun p).diffNormSq < convThreshold p),
    (sweepRun p).iter / n)

/-- The curvature matrix `H_outerᵗ·diag(h_mid)·H_outer + 2·l2·I` implicitly
maintained by the sweep (entry `(j, j')`). -/
def curvatureMatrix {N n : ℕ} (p : SweepParams N n) (j j' : Fin n) : ℚ :=
  (∑ i, p.Houter i j * (p.hmid i * p.Houter i j')) +
    (match p.l2 with
     | none => 0
     | some c => if j = j' then 2 * c else 0)

/-- The running-curvature-product invariant:
`hess_matmul_x_update = (H_outerᵗ·diag(h_mid)·H_outer + 2·l2·I) · x_update`. -/
def hessInvariant {N n : ℕ} (p : SweepParams N n) (s : SweepState n) : Prop :=
  ∀ j, s.hessMatmulXUpdate j = ∑ j', curvatureMatrix p j j' * s.xUpdate j'

/-! ### The outer iteration driver (`minimize_sparse`, `fit_sparse`) -/

/-- The triple returned by `grad_and_hessian_loss_fn`. -/
structure GradHess (N n : ℕ) where
  g : Fin n → ℚ
  Houter : Fin N → Fin n → ℚ
  hmid : Fin N → ℚ

/-- Configuration of the outer loop.  `normOf` supplies the value of
`tf.norm(·, ord=2)` for the sweep's convergence threshold. -/
structure OuterConfig (n : ℕ) where
  tolerance : ℚ
  l1 : ℚ
  l2 : Option ℚ
  lr : Option ℚ
  maxIter : ℕ
  maxSweepsPerIter : ℕ
  normOf : (Fin n → ℚ) → ℚ

/-- Assembles the arguments `minimize_sparse`'s loop body passes to
`minimize_sparse_one_step`. -/
def mkSweepParams {N n : ℕ} (cfg : OuterConfig n) (gh : GradHess N n)
    (x : Fin n → ℚ) : SweepParams N n :=
  ⟨gh.g, gh.Houter, gh.hmid, x, cfg.tolerance, cfg.l1, cfg.l2, cfg.lr,
    cfg.maxSweepsPerIter, cfg.normOf x⟩

/-- The loop-carried state of the outer `tf.while_loop`:
`[x_start, converged, iter]`. -/
structure OuterState (n : ℕ) where
  x : Fin n → ℚ
  converged : Bool
  iter : ℕ

/-- Embeds the outer `_loop_cond`: `iter_ < maximum_iterations
and not converged`. -/
def outerCond {n : ℕ} (cfg : OuterConfig n) (st : OuterState n) : Prop :=
  st.iter < cfg.maxIter ∧ st.converged = false

instance {n : ℕ} (cfg : OuterConfig n) : DecidablePred (outerCond cfg) :=
  fun _ => by unfold outerCond; infer_instance

/-- Embeds the outer `_loop_body`: refresh `(g, h_outer, h_middle)` from the
callback, run one sweep, adopt its `x` and convergence flag, increment the
iteration counter (the sweep's own iteration count is discarded). -/
def outerStep {N n : ℕ} (cfg : OuterConfig n) (f : (Fin n → ℚ) → GradHess N n)
    (st : OuterState n) : OuterState n :=
  ⟨(minimize_sparse_one_step (mkSweepParams cfg (f st.x) st.x)).1,
    (minimize_sparse_one_step (mkSweepParams cfg (f st.x) st.x)).2.1,
    st.iter + 1⟩

/-- Embeds `minimize_sparse`: the outer `tf.while_loop` from the initial
state `(x_start, converged = false, iter = 0)`. -/
def minimize_sparse {N n : ℕ} (cfg : OuterConfig n)
    (f : (Fin n → ℚ) → GradHess N n) (x₀ : Fin n → ℚ) : OuterState n :=
  whileLoop (outerCond cfg) (outerStep cfg f) cfg.maxIter ⟨x₀, false, 0⟩

/-- Matrix-vector product `X @ x` (the predicted linear response). -/
def matvecQ {N n : ℕ} (X : Fin N → Fin n → ℚ) (x : Fin n → ℚ) : Fin N → ℚ :=
  fun i => ∑ j, X i j * x j

/-- Embeds `_grad_neg_log_likelihood_and_fim_fn` from `fit_sparse`: evaluate
the model at the linear response `X @ x`, run the adapter, and return
`(gradient, X, fim_middle)` — the curvature outer factor is the model matrix
itself.  The adapter outputs are finite here (the model outputs embed as
finite `FP` values), so `FP.toRat` extracts them losslessly; see
`gradAndFimCallback_fin`. -/
def gradAndFimCallback {N n : ℕ} (X : Fin N → Fin n → ℚ) (response : Fin N → ℚ)
    (model : (Fin N → ℚ) → ModelOut N) (x : Fin n → ℚ) : GradHess N n :=
  ⟨fun j => ((gradNegLogLikelihoodAndFim X response (model (matvecQ X x))).1 j).toRat,
    X,
    fun i => ((gradNegLogLikelihoodAndFim X response (model (matvecQ X x))).2 i).toRat⟩

/-- Embeds `fit_sparse`: `minimize_sparse` applied to the adapter callback. -/
def fit_sparse {N n : ℕ} (X : Fin N → Fin n → ℚ) (response : Fin N → ℚ)
    (model : (Fin N → ℚ) → ModelOut N) (x₀ : Fin n → ℚ) (cfg : OuterConfig n) :
    OuterState n :=
  minimize_sparse cfg (gradAndFimCallback X response model) x₀

/-! ### Concrete inputs used by counterexamples and witnesses -/

/-- One-coordinate sweep input with a zero sweep budget
(`maximum_full_sweeps = 0`) and positive tolerance. -/
def zeroSweepParams : SweepParams 1 1 :=
  ⟨fun _ => 0, fun _ _ => 1, fun _ => 1, fun _ => 0, 1, 0, none, none, 0, 0⟩

/-- One-coordinate sweep input: gradient `-2`, unit curvature, zero start,
no regularization, tolerance `1`, two full sweeps allowed.  Its first
coordinate update has `delta = 2`; the second lands exactly on the proximal
fixed point, so `delta = 0` at the sweep boundary. -/
def exampleSweepParams : SweepParams 1 1 :=
  ⟨fun _ => -2, fun _ _ => 1, fun _ => 1, fun _ => 0, 1, 0, none, none, 2, 0⟩

/-- Outer-driver configuration with `maximum_iterations = 0`. -/
def zeroOuterConfig : OuterConfig 1 :=
  ⟨1, 0, none, none, 0, 1, fun _ => 0⟩

/-- Outer-driver configuration with one iteration allowed. -/
def exampleOuterConfig : OuterConfig 1 :=
  ⟨1, 0, none, none, 1, 1, fun _ => 0⟩

/-- A concrete gradient/Hessian callback for witnesses. -/
def exampleCallback : (Fin 1 → ℚ) → GradHess 1 1 :=
  fun _ => ⟨fun _ => 0, fun _ _ => 1, fun _ => 1⟩

/-- A concrete model collaborator for witnesses: identity-link Gaussian with
unit variance. -/
def exampleModel : (Fin 1 → ℚ) → ModelOut 1 :=
  fun eta => ⟨fun i => eta i, fun _ => .fin 1, fun _ => .fin 1⟩

/-- A concrete 1×1 model matrix for witnesses. -/
def exampleMatrix : Fin 1 → Fin 1 → ℚ :=
  fun _ _ => 1

/-- A concrete response vector for witnesses. -/
def exampleResponse : Fin 1 → ℚ :=
  fun _ => 1

end ProximalHessian

namespace ProximalHessian

/-! ### Theorems -/

/-! #### While-loop traces -/

lemma whileLoop_zero {σ : Type*} (c : σ → Prop) [DecidablePred c] (f : σ → σ)
    (s : σ) : whileLoop c f 0 s = s :=
  rfl

lemma whileLoop_succ {σ : Type*} (c : σ → Prop) [DecidablePred c] (f : σ → σ)
    (fuel : ℕ) (s : σ) :
    whileLoop c f (fuel + 1) s = if c s then whileLoop c f fuel (f s) else s :=
  rfl

/-- A fuel-indexed while loop is an iterate of its body along states that all
satisfied the condition; it stops either by exhausting the fuel or at a state
falsifying the condition. -/
lemma whileLoop_trace {σ : Type*} (c : σ → Prop) [DecidablePred c] (f : σ → σ) :
    ∀ (fuel : ℕ) (s : σ), ∃ K, K ≤ fuel ∧ whileLoop c f fuel s = f^[K] s ∧
      (∀ j, j < K → c (f^[j] s)) ∧ (K = fuel ∨ ¬c (whileLoop c f fuel s)) := by
  intro fuel
  induction fuel with
  | zero =>
    intro s
    exact ⟨0, le_refl 0, rfl, fun j hj => absurd hj (Nat.not_lt_zero j), Or.inl rfl⟩
  | succ fuel ih =>
    intro s
    by_cases hc : c s
    · obtain ⟨K, hK, heq, hall, hlast⟩ := ih (f s)
      refine ⟨K + 1, by omega, ?_, ?_, ?_⟩
      · rw [whileLoop_succ, if_pos hc, heq, Function.iterate_succ_apply]
      · intro j hj
        cases j with
        | zero => simpa using hc
        | succ j =>
          rw [Function.iterate_succ_apply]
          exact hall j (by omega)
      · rcases hlast with h | h
        · exact Or.inl (by omega)
        · right
          rw [whileLoop_succ, if_pos hc]
          exact h
    · refine ⟨0, Nat.zero_le _, ?_, fun j hj => absurd hj (Nat.not_lt_zero j), ?_⟩
      · rw [whileLoop_succ, if_neg hc]
        rfl
      · right
        rw [whileLoop_succ, if_neg hc]
        exact hc

/-! #### Sweep step lemmas -/

lemma sweepStep_eq {N n : ℕ} (p : SweepParams N n) (hn : 0 < n)
    (s : SweepState n) :
    sweepStep p s = sweepStepAux p s ⟨s.iter % n, Nat.mod_lt _ hn⟩ :=
  dif_pos hn

lemma sweepStepAux_iter {N n : ℕ} (p : SweepParams N n) (s : SweepState n)
    (coord : Fin n) : (sweepStepAux p s coord).iter = s.iter + 1 := by
  unfold sweepStepAux
  split <;> rfl

lemma sweepStep_iter {N n : ℕ} (p : SweepParams N n) (hn : 0 < n)
    (s : SweepState n) : (sweepStep p s).iter = s.iter + 1 := by
  rw [sweepStep_eq p hn, sweepStepAux_iter]

lemma sweepStep_iterate_iter {N n : ℕ} (p : SweepParams N n) (hn : 0 < n) :
    ∀ k, ((sweepStep p)^[k] (initState n)).iter = k := by
  intro k
  induction k with
  | zero => rfl
  | succ k ih => rw [Function.iterate_succ_apply', sweepStep_iter p hn, ih]

/-- The sweep's run is a genuine while-loop trace: all visited states but the
last satisfy `_loop_cond`, and the loop exits exactly when `_loop_cond`
fails. -/
lemma sweepRun_trace {N n : ℕ} (p : SweepParams N n) (hn : 0 < n) :
    ∃ K, K ≤ p.maxSweeps * n ∧ sweepRun p = (sweepStep p)^[K] (initState n) ∧
      (∀ j, j < K → sweepCond p ((sweepStep p)^[j] (initState n))) ∧
      ¬sweepCond p (sweepRun p) := by
  obtain ⟨K, hK, heq, hall, hlast⟩ :=
    whileLoop_trace (sweepCond p) (sweepStep p) (p.maxSweeps * n) (initState n)
  refine ⟨K, hK, heq, hall, ?_⟩
  rcases hlast with h | h
  · intro hc
    have hiter : (sweepRun p).iter = K := by
      rw [show sweepRun p = (sweepStep p)^[K] (initState n) from heq]
      exact sweepStep_iterate_iter p hn K
    have hlt := hc.1
    omega
  · exact h

/-! #### Outer step lemmas -/

lemma outerStep_iter {N n : ℕ} (cfg : OuterConfig n)
    (f : (Fin n → ℚ) → GradHess N n) (st : OuterState n) :
    (outerStep cfg f st).iter = st.iter + 1 :=
  rfl

lemma outerStep_iterate_iter {N n : ℕ} (cfg : OuterConfig n)
    (f : (Fin n → ℚ) → GradHess N n) (x₀ : Fin n → ℚ) :
    ∀ k, ((outerStep cfg f)^[k] ⟨x₀, false, 0⟩).iter = k := by
  intro k
  induction k with
  | zero => rfl
  | succ k ih => rw [Function.iterate_succ_apply', outerStep_iter, ih]

/-- The outer driver's run is a genuine while-loop trace. -/
lemma outerRun_trace {N n : ℕ} (cfg : OuterConfig n)
    (f : (Fin n → ℚ) → GradHess N n) (x₀ : Fin n → ℚ) :
    ∃ K, K ≤ cfg.maxIter ∧
      minimize_sparse cfg f x₀ = (outerStep cfg f)^[K] ⟨x₀, false, 0⟩ ∧
      (∀ j, j < K → outerCond cfg ((outerStep cfg f)^[j] ⟨x₀, false, 0⟩)) ∧
      ¬outerCond cfg (minimize_sparse cfg f x₀) := by
  obtain ⟨K, hK, heq, hall, hlast⟩ :=
    whileLoop_trace (outerCond cfg) (outerStep cfg f) cfg.maxIter ⟨x₀, false, 0⟩
  refine ⟨K, hK, heq, hall, ?_⟩
  rcases hlast with h | h
  · intro hc
    have hiter : (minimize_sparse cfg f x₀).iter = K := by
      rw [show minimize_sparse cfg f x₀ = (outerStep cfg f)^[K] ⟨x₀, false, 0⟩ from heq]
      exact outerStep_iterate_iter cfg f x₀ K
    have hlt := hc.1
    omega
  · exact h

/-- Claim C4: for every input `x` and every `threshold ≥ 0`,
`soft_threshold(x, threshold)` equals `sign(x) * max(|x| - threshold, 0)`;
consequently `soft_threshold(x, 0) = x`, each output entry has the same sign
as the input entry or is exactly `0`, and its absolute value equals
`max(|x| - threshold, 0)`. -/
theorem soft_threshold_spec (x t : ℚ) (ht : 0 ≤ t) :
    soft_threshold x t = signQ x * max (|x| - t) 0 ∧
    soft_threshold x 0 = x ∧
    (soft_threshold x t = 0 ∨ signQ (soft_threshold x t) = signQ x) ∧
    |soft_threshold x t| = max (|x| - t) 0 := by
  refine ⟨rfl, ?_, ?_, ?_⟩
  · rcases lt_trichotomy x 0 with hx | hx | hx
    · rw [soft_threshold, signQ, if_neg (by linarith), if_pos hx, abs_of_neg hx,
        sub_zero, max_eq_left (by linarith)]
      ring
    · simp [soft_threshold, signQ, hx]
    · rw [soft_threshold, signQ, if_pos hx, abs_of_pos hx, sub_zero,
        max_eq_left (by linarith)]
      ring
  · rcases lt_trichotomy x 0 with hx | hx | hx
    · by_cases hxt : |x| - t ≤ 0
      · left
        rw [soft_threshold, max_eq_right hxt, mul_zero]
      · right
        have h1 : soft_threshold x t < 0 := by
          rw [soft_threshold, signQ, if_neg (by linarith), if_pos hx,
            max_eq_left (by linarith)]
          nlinarith
        rw [signQ, signQ, if_neg (by linarith), if_pos h1, if_neg (by linarith),
          if_pos hx]
    · left
      simp [soft_threshold, signQ, hx]
    · by_cases hxt : |x| - t ≤ 0
      · left
        rw [soft_threshold, max_eq_right hxt, mul_zero]
      · right
        have h1 : 0 < soft_threshold x t := by
          rw [soft_threshold, signQ, if_pos hx, max_eq_left (by linarith)]
          nlinarith
        rw [signQ, signQ, if_pos h1, if_pos hx]
  · rcases lt_trichotomy x 0 with hx | hx | hx
    · rw [soft_threshold, signQ, if_neg (by linarith), if_pos hx]
      rw [abs_mul, abs_of_neg (by norm_num : (-1 : ℚ) < 0)]
      rw [abs_of_nonneg (le_max_right _ _)]
      ring
    · rw [hx]
      have h0 : soft_threshold 0 t = 0 := by simp [soft_threshold, signQ]
      rw [h0, abs_zero, eq_comm,
        max_eq_right (by linarith : (0 : ℚ) - t ≤ 0)]
    · rw [soft_threshold, signQ, if_pos hx]
      rw [abs_mul, abs_of_pos (by norm_num : (0 : ℚ) < 1)]
      rw [abs_of_nonneg (le_max_right _ _)]
      ring

/-- Witness for `soft_threshold_spec` at `x = -3`, `t = 1`. -/
theorem soft_threshold_spec_witness :
    (0 : ℚ) ≤ 1 ∧
    (soft_threshold (-3) 1 = signQ (-3) * max (|(-3 : ℚ)| - 1) 0 ∧
      soft_threshold (-3) 0 = -3 ∧
      (soft_threshold (-3) 1 = 0 ∨ signQ (soft_threshold (-3) 1) = signQ (-3)) ∧
      |soft_threshold (-3) 1| = max (|(-3 : ℚ)| - 1) 0) :=
  ⟨by norm_num, soft_threshold_spec (-3) 1 (by norm_num)⟩

/-- Claim C2: the adapter marks a sample invalid exactly when `grad_mean` is
non-finite, `grad_mean == 0`, `variance` is non-finite, or `variance <= 0`
(IEEE comparison); it returns `gradient = -(Xᵗ·v)` with
`v = (response - mean) * grad_mean_masked / variance_masked` and
`curvature_middle = grad_mean_masked² / variance_masked`, where the masks
replace `grad_mean` by `1` (in `v`) resp. `0` (in the curvature) and
`variance` by `+inf`; consequently each invalid sample has `v = 0` and
curvature `0`, contributing zero. -/
theorem grad_neg_log_likelihood_and_fim_spec {N n : ℕ} (X : Fin N → Fin n → ℚ)
    (response : Fin N → ℚ) (m : ModelOut N) :
    (∀ i, isValidSample m i = false ↔
      ((m.gradMean i).isFinite = false ∨ m.gradMean i = .fin 0 ∨
        (m.variance i).isFinite = false ∨ (m.variance i).leZero = true)) ∧
    (gradNegLogLikelihoodAndFim X response m).1
      = (fun j => (fpMatvecT X (vVector response m) j).neg) ∧
    (gradNegLogLikelihoodAndFim X response m).2 = fimMiddle m ∧
    (∀ i, isValidSample m i = false →
      maskIfInvalid (isValidSample m i) (m.gradMean i) (.fin 1) = .fin 1 ∧
      maskIfInvalid (isValidSample m i) (m.gradMean i) (.fin 0) = .fin 0 ∧
      maskIfInvalid (isValidSample m i) (m.variance i) .inf = .inf ∧
      vVector response m i = .fin 0 ∧ fimMiddle m i = .fin 0) := by
  refine ⟨?_, rfl, rfl, ?_⟩
  · intro i
    rcases hg : m.gradMean i with q | _ | _ | _ <;>
      rcases hv : m.variance i with r | _ | _ | _ <;>
        simp [isValidSample, FP.isFinite, FP.neqZero, FP.gtZero, FP.leZero,
          hg, hv, not_lt]
    tauto
  · intro i h
    refine ⟨by simp [maskIfInvalid, h], by simp [maskIfInvalid, h],
      by simp [maskIfInvalid, h], ?_, ?_⟩
    · simp [vVector, maskIfInvalid, h, FP.mul, FP.div]
    · simp [fimMiddle, maskIfInvalid, h, FP.mul, FP.div]

/-- Witness for `grad_neg_log_likelihood_and_fim_spec`: the sample of
`exampleModelOut` is invalid (non-positive variance) and contributes zero. -/
theorem grad_neg_log_likelihood_and_fim_spec_witness :
    isValidSample exampleModelOut 0 = false ∧
    vVector (fun _ => 2) exampleModelOut 0 = .fin 0 ∧
    fimMiddle exampleModelOut 0 = .fin 0 := by
  have hval : isValidSample exampleModelOut 0 = false := by
    simp [isValidSample, exampleModelOut, FP.isFinite, FP.neqZero, FP.gtZero]
  have h := (@grad_neg_log_likelihood_and_fim_spec 1 1 (fun _ _ => (1 : ℚ))
    (fun _ => 2) exampleModelOut).2.2.2 0 hval
  exact ⟨hval, h.2.2.2.1, h.2.2.2.2⟩

/-- Claim C8: within one sweep, `x_update_diff_norm_sq` is reset to exactly 0
at every sweep boundary (whenever `iter mod n` wraps to 0), regardless of its
prior value: the accumulator value after a boundary step does not mention the
incoming accumulator at all — it is `0` on a skip and `delta²` otherwise. -/
theorem diff_norm_sq_reset_at_boundary {N n : ℕ} (p : SweepParams N n)
    (hn : 0 < n) (s : SweepState n) (coord : Fin n)
    (hcoord : (coord : ℕ) = s.iter % n) (hb : s.iter % n = 0) :
    (sweepStep p s).diffNormSq =
      (if deltaAt p s coord = 0 then 0 else deltaAt p s coord ^ 2) := by
  have hc : (⟨s.iter % n, Nat.mod_lt _ hn⟩ : Fin n) = coord :=
    Fin.ext hcoord.symm
  rw [sweepStep_eq p hn, hc]
  unfold sweepStepAux resetDiffNormSq
  split <;> simp [hb]

/-- Witness for `diff_norm_sq_reset_at_boundary` at the first state of a
concrete run (`iter = 0` is a boundary). -/
theorem diff_norm_sq_reset_at_boundary_witness :
    (0 < 1 ∧ ((0 : Fin 1) : ℕ) = (initState 1).iter % 1 ∧ (initState 1).iter % 1 = 0) ∧
    (sweepStep exampleSweepParams (initState 1)).diffNormSq =
      (if deltaAt exampleSweepParams (initState 1) 0 = 0 then 0
        else deltaAt exampleSweepParams (initState 1) 0 ^ 2) :=
  ⟨⟨by decide, by decide, by decide⟩,
    diff_norm_sq_reset_at_boundary exampleSweepParams (by decide) (initState 1) 0
      (by decide) (by decide)⟩

lemma hessianColumnWithL2_eq {N n : ℕ} (p : SweepParams N n) (coord j : Fin n) :
    hessianColumnWithL2 p coord j = curvatureMatrix p j coord :=
  rfl

lemma hessInvariant_stepAux {N n : ℕ} (p : SweepParams N n) (s : SweepState n)
    (coord : Fin n) (hs : hessInvariant p s) :
    hessInvariant p (sweepStepAux p s coord) := by
  intro j
  unfold sweepStepAux
  by_cases hd : deltaAt p s coord = 0
  · simp only [if_pos hd]
    exact hs j
  · simp only [if_neg hd]
    have hupd : ∀ j' : Fin n,
        Function.update s.xUpdate coord (s.xUpdate coord + deltaAt p s coord) j'
          = s.xUpdate j' + (if j' = coord then deltaAt p s coord else 0) := by
      intro j'
      by_cases h : j' = coord
      · subst h
        simp
      · rw [Function.update_noteq h, if_neg h, add_zero]
    show s.hessMatmulXUpdate j + deltaAt p s coord * hessianColumnWithL2 p coord j
        = ∑ j', curvatureMatrix p j j' *
            Function.update s.xUpdate coord (s.xUpdate coord + deltaAt p s coord) j'
    have hsplit : (∑ j', curvatureMatrix p j j' *
          Function.update s.xUpdate coord (s.xUpdate coord + deltaAt p s coord) j')
        = ∑ j', (curvatureMatrix p j j' * s.xUpdate j'
            + (if j' = coord then curvatureMatrix p j j' * deltaAt p s coord else 0)) := by
      apply Finset.sum_congr rfl
      intro j' _
      rw [hupd j']
      by_cases h : j' = coord
      · rw [if_pos h, if_pos h]
        ring
      · rw [if_neg h, if_neg h]
        ring
    rw [hsplit, Finset.sum_add_distrib,
      Finset.sum_ite_eq' Finset.univ coord
        (fun j' => curvatureMatrix p j j' * deltaAt p s coord)]
    rw [hs j, hessianColumnWithL2_eq]
    simp [mul_comm]

/-- Claim C3: the running curvature product is an invariant of every
coordinate update: the sweep body preserves
`hess_matmul_x_update = (H_outerᵗ·diag(h_mid)·H_outer + 2·l2·I) · x_update`
(the increment form of the claim is equivalent, since `x_update` changes only
at `coord`, by `delta`), and the invariant holds at every state of the
iteration from the zero-initialized state. -/
theorem hess_matmul_x_update_invariant {N n : ℕ} (p : SweepParams N n)
    (hn : 0 < n) :
    (∀ s, hessInvariant p s → hessInvariant p (sweepStep p s)) ∧
    ∀ k, hessInvariant p ((sweepStep p)^[k] (initState n)) := by
  have hstep : ∀ s, hessInvariant p s → hessInvariant p (sweepStep p s) := by
    intro s hs
    rw [sweepStep_eq p hn]
    exact hessInvariant_stepAux p s _ hs
  refine ⟨hstep, ?_⟩
  intro k
  induction k with
  | zero =>
    intro j
    simp [initState]
  | succ k ih =>
    rw [Function.iterate_succ_apply']
    exact hstep _ ih

/-- Witness for `hess_matmul_x_update_invariant`: the invariant after one
step of a concrete run. -/
theorem hess_matmul_x_update_invariant_witness :
    0 < 1 ∧
    hessInvariant exampleSweepParams ((sweepStep exampleSweepParams)^[1] (initState 1)) :=
  ⟨by decide, (hess_matmul_x_update_invariant exampleSweepParams (by decide)).2 1⟩

/-- Claim C6: a terminating sweep returns the triple
`(x_start + x_update, converged flag, iter / n)`; the division is exact —
the final `iter` is always a multiple of `n` — so true division and integer
division agree, and the sweep count is at most `maximum_full_sweeps`. -/
theorem sweep_return_value {N n : ℕ} (p : SweepParams N n) (hn : 0 < n) :
    (minimize_sparse_one_step p).1
      = (fun j => p.xStart j + (sweepRun p).xUpdate j) ∧
    (minimize_sparse_one_step p).2.1
      = decide ((sweepRun p).diffNormSq < convThreshold p) ∧
    (minimize_sparse_one_step p).2.2 = (sweepRun p).iter / n ∧
    (minimize_sparse_one_step p).2.2 * n = (sweepRun p).iter ∧
    (minimize_sparse_one_step p).2.2 ≤ p.maxSweeps := by
  obtain ⟨K, hK, heq, hall, hstop⟩ := sweepRun_trace p hn
  have hiter : (sweepRun p).iter = K := by
    rw [heq]
    exact sweepStep_iterate_iter p hn K
  have hdvd : n ∣ (sweepRun p).iter := by
    by_cases hb : boundaryConverged p (sweepRun p)
    · exact Nat.dvd_of_mod_eq_zero hb.1.2
    · have hge : ¬(sweepRun p).iter < p.maxSweeps * n := fun hlt => hstop ⟨hlt, hb⟩
      have hval : (sweepRun p).iter = p.maxSweeps * n := by omega
      rw [hval]
      exact dvd_mul_left n p.maxSweeps
  refine ⟨rfl, rfl, rfl, Nat.div_mul_cancel hdvd, ?_⟩
  have hle : (sweepRun p).iter / n * n ≤ p.maxSweeps * n := by
    rw [Nat.div_mul_cancel hdvd]
    omega
  exact Nat.le_of_mul_le_mul_right hle hn

/-- Witness for `sweep_return_value` on a concrete run. -/
theorem sweep_return_value_witness :
    0 < 1 ∧
    (minimize_sparse_one_step exampleSweepParams).2.2 * 1
      = (sweepRun exampleSweepParams).iter ∧
    (minimize_sparse_one_step exampleSweepParams).2.2 ≤ exampleSweepParams.maxSweeps :=
  ⟨by decide, (sweep_return_value exampleSweepParams (by decide)).2.2.2.1,
    (sweep_return_value exampleSweepParams (by decide)).2.2.2.2⟩

/-- Counterexample to claim C1 as stated: with `maximum_full_sweeps = 0` and
positive tolerance the loop body never runs (the run's only state is the
initial one, with `iter = 0`), yet the returned flag — recomputed as
`x_update_diff_norm_sq < threshold` after the loop — is `true`.  Hence
"converged is reported iff at some point with `iter > 0` and
`iter mod n == 0` the accumulator was below threshold" fails: the flag is
`true` although no state with `iter > 0` ever existed. -/
theorem sweep_convergence_zero_budget_counterexample :
    (minimize_sparse_one_step zeroSweepParams).2.1 = true ∧
    sweepRun zeroSweepParams = initState 1 ∧
    (initState 1).iter = 0 := by
  refine ⟨?_, rfl, rfl⟩
  have h : (minimize_sparse_one_step zeroSweepParams).2.1
      = decide ((0 : ℚ) < convThreshold zeroSweepParams) := rfl
  rw [h, decide_eq_true_eq]
  norm_num [convThreshold, zeroSweepParams]

/-- Claim C1, amended: for runs with `maximum_full_sweeps ≥ 1` (the spec's
configuration surface; with a zero sweep budget the flag instead reports
whether the zero update already satisfies the threshold), the sweep is a
while-loop trace whose every non-final state satisfies `_loop_cond`;
the loop terminates exactly when `iter ≥ maximum_full_sweeps · n` or
convergence is detected at a sweep boundary; and the returned flag is `true`
iff at some visited point with `iter > 0` and `iter mod n = 0` the
accumulator was below `tolerance · (1 + ‖x_start‖₂)²`. -/
theorem sweep_convergence_characterization {N n : ℕ} (p : SweepParams N n)
    (hn : 0 < n) (hmax : 1 ≤ p.maxSweeps)
    (_hnorm : p.normXStart ^ 2 = normSq p.xStart ∧ 0 ≤ p.normXStart) :
    ∃ K, K ≤ p.maxSweeps * n ∧
      sweepRun p = (sweepStep p)^[K] (initState n) ∧
      (∀ j, j < K → sweepCond p ((sweepStep p)^[j] (initState n))) ∧
      ¬sweepCond p (sweepRun p) ∧
      ((minimize_sparse_one_step p).2.1 = true ↔ boundaryConverged p (sweepRun p)) ∧
      ((minimize_sparse_one_step p).2.1 = true ↔
        ∃ k, k ≤ p.maxSweeps * n ∧
          boundaryConverged p ((sweepStep p)^[k] (initState n))) := by
  obtain ⟨K, hK, heq, hall, hstop⟩ := sweepRun_trace p hn
  have hiter : (sweepRun p).iter = K := by
    rw [heq]
    exact sweepStep_iterate_iter p hn K
  have hflag : (minimize_sparse_one_step p).2.1 = true ↔
      (sweepRun p).diffNormSq < convThreshold p := by
    show decide ((sweepRun p).diffNormSq < convThreshold p) = true ↔ _
    rw [decide_eq_true_eq]
  have hbc : (minimize_sparse_one_step p).2.1 = true ↔
      boundaryConverged p (sweepRun p) := by
    rw [hflag]
    constructor
    · intro hsmall
      by_cases hb : boundaryConverged p (sweepRun p)
      · exact hb
      · have hge : ¬(sweepRun p).iter < p.maxSweeps * n := fun hlt => hstop ⟨hlt, hb⟩
        have hval : (sweepRun p).iter = p.maxSweeps * n := by omega
        refine ⟨⟨?_, ?_⟩, hsmall⟩
        · rw [hval]
          exact Nat.mul_pos hmax hn
        · rw [hval]
          exact Nat.mul_mod_left p.maxSweeps n
    · exact fun hb => hb.2
  refine ⟨K, hK, heq, hall, hstop, hbc, ?_⟩
  rw [hbc]
  constructor
  · intro hb
    refine ⟨K, hK, ?_⟩
    rw [← heq]
    exact hb
  · rintro ⟨k, hk, hbk⟩
    rcases Nat.lt_or_ge k K with hlt | hge
    · exact absurd hbk (hall k hlt).2
    · rcases Nat.eq_or_lt_of_le hge with heqk | hgt
      · rw [heq, heqk]
        exact hbk
      · have hKlt : K < p.maxSweeps * n := lt_of_lt_of_le hgt hk
        by_contra hb
        exact hstop ⟨by omega, hb⟩

/-- Witness for `sweep_convergence_characterization` on a concrete run
(one coordinate, two sweeps allowed, zero start). -/
theorem sweep_convergence_characterization_witness :
    (0 < 1 ∧ 1 ≤ exampleSweepParams.maxSweeps ∧
      (exampleSweepParams.normXStart ^ 2 = normSq exampleSweepParams.xStart ∧
        0 ≤ exampleSweepParams.normXStart)) ∧
    (∃ K, K ≤ exampleSweepParams.maxSweeps * 1 ∧
      sweepRun exampleSweepParams = (sweepStep exampleSweepParams)^[K] (initState 1) ∧
      (∀ j, j < K → sweepCond exampleSweepParams
        ((sweepStep exampleSweepParams)^[j] (initState 1))) ∧
      ¬sweepCond exampleSweepParams (sweepRun exampleSweepParams) ∧
      ((minimize_sparse_one_step exampleSweepParams).2.1 = true ↔
        boundaryConverged exampleSweepParams (sweepRun exampleSweepParams)) ∧
      ((minimize_sparse_one_step exampleSweepParams).2.1 = true ↔
        ∃ k, k ≤ exampleSweepParams.maxSweeps * 1 ∧
          boundaryConverged exampleSweepParams
            ((sweepStep exampleSweepParams)^[k] (initState 1)))) :=
  ⟨⟨by decide, by decide, by norm_num [exampleSweepParams, normSq]⟩,
    sweep_convergence_characterization exampleSweepParams (by decide) (by decide)
      (by norm_num [exampleSweepParams, normSq])⟩

/-- Counterexample to claim C7 as stated: in a concrete run (gradient `-2`,
unit curvature, zero start, `l1 = 0`, tolerance `1`, two sweeps), the second
coordinate iteration computes `delta = 0` exactly — yet
`x_update_diff_norm_sq` is NOT returned unchanged: the iteration sits at a
sweep boundary, so the accumulator is reset from `4` to `0` before the
`delta == 0` short-circuit is evaluated.  The state is genuinely reachable:
`_loop_cond` holds at it, so the run does execute this iteration. -/
theorem delta_zero_skip_counterexample :
    deltaAt exampleSweepParams (sweepStep exampleSweepParams (initState 1)) 0 = 0 ∧
    sweepCond exampleSweepParams (sweepStep exampleSweepParams (initState 1)) ∧
    (sweepStep exampleSweepParams (sweepStep exampleSweepParams (initState 1))).diffNormSq
      ≠ (sweepStep exampleSweepParams (initState 1)).diffNormSq := by
  have hn1 : (0 : ℕ) < 1 := by decide
  have hδinit : deltaAt exampleSweepParams (initState 1) 0 = 2 := by
    norm_num [deltaAt, wOldAt, newtonStepAt, hessianDiagEltWithL2, hmidAt,
      gradLossWithL2, mulIgnoringNones, mulOrNone, addIgnoringNones,
      soft_threshold, signQ, exampleSweepParams, initState, Fin.sum_univ_one]
  have e1 : sweepStep exampleSweepParams (initState 1)
      = sweepStepAux exampleSweepParams (initState 1) 0 := by
    rw [sweepStep_eq exampleSweepParams hn1]
    exact congrArg _ (Subsingleton.elim _ _)
  have hi1 : (sweepStep exampleSweepParams (initState 1)).iter = 1 := by
    rw [e1, sweepStepAux_iter]
    rfl
  have hd1 : (sweepStep exampleSweepParams (initState 1)).diffNormSq = 4 := by
    rw [e1]
    unfold sweepStepAux
    rw [hδinit]
    norm_num [resetDiffNormSq, initState]
  have hx1 : (sweepStep exampleSweepParams (initState 1)).xUpdate 0 = 2 := by
    rw [e1]
    unfold sweepStepAux
    rw [hδinit]
    norm_num [initState]
  have hh1 : (sweepStep exampleSweepParams (initState 1)).hessMatmulXUpdate 0 = 2 := by
    rw [e1]
    unfold sweepStepAux
    rw [hδinit]
    norm_num [initState, hessianColumnWithL2, exampleSweepParams, Fin.sum_univ_one]
  have hδs1 : deltaAt exampleSweepParams (sweepStep exampleSweepParams (initState 1)) 0
      = 0 := by
    unfold deltaAt wOldAt newtonStepAt
    rw [hx1, hh1]
    norm_num [hessianDiagEltWithL2, hmidAt, gradLossWithL2, mulIgnoringNones,
      mulOrNone, addIgnoringNones, soft_threshold, signQ, exampleSweepParams,
      Fin.sum_univ_one]
  have hcond : sweepCond exampleSweepParams (sweepStep exampleSweepParams (initState 1)) := by
    constructor
    · rw [hi1]
      norm_num [exampleSweepParams]
    · intro hb
      have hsmall := hb.2
      rw [hd1] at hsmall
      norm_num [convThreshold, exampleSweepParams] at hsmall
  have hb1 : (sweepStep exampleSweepParams (sweepStep exampleSweepParams (initState 1))).diffNormSq
      = 0 := by
    have e2 : sweepStep exampleSweepParams (sweepStep exampleSweepParams (initState 1))
        = sweepStepAux exampleSweepParams (sweepStep exampleSweepParams (initState 1)) 0 := by
      rw [sweepStep_eq exampleSweepParams hn1]
      exact congrArg _ (Subsingleton.elim _ _)
    rw [e2]
    unfold sweepStepAux
    rw [if_pos hδs1]
    show resetDiffNormSq (sweepStep exampleSweepParams (initState 1)) = 0
    unfold resetDiffNormSq
    rw [hi1]
    norm_num
  refine ⟨hδs1, hcond, ?_⟩
  rw [hb1, hd1]
  norm_num

/-- Claim C7, amended: when the computed `delta` is exactly `0`, the step
skips the expensive column extraction and matvec and leaves `x_update` and
`hess_matmul_x_update` unchanged; `x_update_diff_norm_sq` is left unchanged
except for the unconditional sweep-boundary reset, which zeroes it whenever
`iter mod n = 0` (so off boundaries it too is unchanged). -/
theorem delta_zero_skip {N n : ℕ} (p : SweepParams N n) (hn : 0 < n)
    (s : SweepState n) (coord : Fin n) (hcoord : (coord : ℕ) = s.iter % n)
    (hd : deltaAt p s coord = 0) :
    sweepStep p s = ⟨s.iter + 1, resetDiffNormSq s, s.xUpdate, s.hessMatmulXUpdate⟩ ∧
    (s.iter % n ≠ 0 → (sweepStep p s).diffNormSq = s.diffNormSq) := by
  have hc : (⟨s.iter % n, Nat.mod_lt _ hn⟩ : Fin n) = coord :=
    Fin.ext hcoord.symm
  have h1 : sweepStep p s = ⟨s.iter + 1, resetDiffNormSq s, s.xUpdate, s.hessMatmulXUpdate⟩ := by
    rw [sweepStep_eq p hn, hc]
    unfold sweepStepAux
    rw [if_pos hd]
  refine ⟨h1, fun hnb => ?_⟩
  rw [h1]
  show resetDiffNormSq s = s.diffNormSq
  unfold resetDiffNormSq
  rw [if_neg hnb]

/-- Witness for `delta_zero_skip`: with a zero gradient and zero start the
very first `delta` is exactly `0` and the step only advances the counter. -/
theorem delta_zero_skip_witness :
    (0 < 1 ∧ ((0 : Fin 1) : ℕ) = (initState 1).iter % 1 ∧
      deltaAt zeroSweepParams (initState 1) 0 = 0) ∧
    (sweepStep zeroSweepParams (initState 1)
      = ⟨(initState 1).iter + 1, resetDiffNormSq (initState 1),
          (initState 1).xUpdate, (initState 1).hessMatmulXUpdate⟩ ∧
      ((initState 1).iter % 1 ≠ 0 →
        (sweepStep zeroSweepParams (initState 1)).diffNormSq = (initState 1).diffNormSq)) := by
  have hd : deltaAt zeroSweepParams (initState 1) 0 = 0 := by
    norm_num [deltaAt, wOldAt, newtonStepAt, hessianDiagEltWithL2, hmidAt,
      gradLossWithL2, mulIgnoringNones, mulOrNone, addIgnoringNones,
      soft_threshold, signQ, zeroSweepParams, initState, Fin.sum_univ_one]
  exact ⟨⟨by decide, by decide, hd⟩,
    delta_zero_skip zeroSweepParams (by decide) (initState 1) 0 (by decide) hd⟩

/-- On finite model outputs every adapter output is a finite `FP` value, so
`gradAndFimCallback`'s `FP.toRat` extraction is lossless. -/
lemma gradAndFimCallback_fin {N n : ℕ} (X : Fin N → Fin n → ℚ)
    (response : Fin N → ℚ) (model : (Fin N → ℚ) → ModelOut N) (x : Fin n → ℚ)
    (hfin : ∀ i, ((model (matvecQ X x)).variance i).isFinite = true ∧
      ((model (matvecQ X x)).gradMean i).isFinite = true) :
    (∀ j, (gradNegLogLikelihoodAndFim X response (model (matvecQ X x))).1 j
      = .fin ((gradAndFimCallback X response model x).g j)) ∧
    (∀ i, (gradNegLogLikelihoodAndFim X response (model (matvecQ X x))).2 i
      = .fin ((gradAndFimCallback X response model x).hmid i)) := by
  have hv : ∀ i, ∃ q, vVector response (model (matvecQ X x)) i = .fin q := by
    intro i
    rcases hfin i with ⟨hvar, hgm⟩
    rcases hgvar : (model (matvecQ X x)).variance i with b | _ | _ | _ <;>
      rw [hgvar] at hvar <;> simp [FP.isFinite] at hvar
    rcases hggm : (model (matvecQ X x)).gradMean i with a | _ | _ | _ <;>
      rw [hggm] at hgm <;> simp [FP.isFinite] at hgm
    by_cases hval : isValidSample (model (matvecQ X x)) i = true
    · refine ⟨(response i - (model (matvecQ X x)).mean i) * a / b, ?_⟩
      rw [vVector]
      rw [maskIfInvalid, if_pos hval, maskIfInvalid, if_pos hval, hgvar, hggm]
      have hb : b ≠ 0 := by
        have := hval
        rw [isValidSample, hgvar] at this
        simp [FP.gtZero] at this
        intro h0
        rw [h0] at this
        exact absurd this.2 (lt_irrefl 0)
      simp [FP.mul, FP.div, hb]
    · have hval' : isValidSample (model (matvecQ X x)) i = false :=
        Bool.eq_false_iff.mpr hval
      refine ⟨0, ?_⟩
      rw [vVector]
      rw [maskIfInvalid, if_neg (by rw [hval']; exact Bool.false_ne_true),
        maskIfInvalid, if_neg (by rw [hval']; exact Bool.false_ne_true)]
      simp [FP.mul, FP.div]
  have hmid : ∀ i, ∃ q, fimMiddle (model (matvecQ X x)) i = .fin q := by
    intro i
    rcases hfin i with ⟨hvar, hgm⟩
    rcases hgvar : (model (matvecQ X x)).variance i with b | _ | _ | _ <;>
      rw [hgvar] at hvar <;> simp [FP.isFinite] at hvar
    rcases hggm : (model (matvecQ X x)).gradMean i with a | _ | _ | _ <;>
      rw [hggm] at hgm <;> simp [FP.isFinite] at hgm
    by_cases hval : isValidSample (model (matvecQ X x)) i = true
    · refine ⟨a * a / b, ?_⟩
      rw [fimMiddle]
      rw [maskIfInvalid, if_pos hval, maskIfInvalid, if_pos hval, hgvar, hggm]
      have hb : b ≠ 0 := by
        have := hval
        rw [isValidSample, hgvar] at this
        simp [FP.gtZero] at this
        intro h0
        rw [h0] at this
        exact absurd this.2 (lt_irrefl 0)
      simp [FP.mul, FP.div, hb]
    · have hval' : isValidSample (model (matvecQ X x)) i = false :=
        Bool.eq_false_iff.mpr hval
      refine ⟨0, ?_⟩
      rw [fimMiddle]
      rw [maskIfInvalid, if_neg (by rw [hval']; exact Bool.false_ne_true),
        maskIfInvalid, if_neg (by rw [hval']; exact Bool.false_ne_true)]
      simp [FP.mul, FP.div]
  have hsum : ∀ l : List FP, (∀ a ∈ l, ∃ q, a = FP.fin q) → ∃ q, fpSum l = .fin q := by
    intro l
    induction l with
    | nil => exact fun _ => ⟨0, rfl⟩
    | cons a l ih =>
      intro h
      obtain ⟨qa, hqa⟩ := h a (List.mem_cons_self a l)
      obtain ⟨ql, hql⟩ := ih (fun b hb => h b (List.mem_cons_of_mem a hb))
      refine ⟨qa + ql, ?_⟩
      show FP.add a (fpSum l) = .fin (qa + ql)
      rw [hqa, hql]
      rfl
  constructor
  · intro j
    obtain ⟨q, hq⟩ := hsum
      ((List.finRange N).map fun i =>
        (FP.fin (X i j)).mul (vVector response (model (matvecQ X x)) i))
      (by
        intro a ha
        obtain ⟨i, _, hi⟩ := List.mem_map.mp ha
        obtain ⟨qi, hqi⟩ := hv i
        exact ⟨X i j * qi, by rw [← hi, hqi]; rfl⟩)
    have hm : fpMatvecT X (vVector response (model (matvecQ X x))) j = FP.fin q := hq
    show (fpMatvecT X (vVector response (model (matvecQ X x))) j).neg
        = FP.fin ((fpMatvecT X (vVector response (model (matvecQ X x))) j).neg).toRat
    rw [hm]
    rfl
  · intro i
    obtain ⟨q, hq⟩ := hmid i
    show fimMiddle (model (matvecQ X x)) i
        = FP.fin (fimMiddle (model (matvecQ X x)) i).toRat
    rw [hq]
    rfl

/-- Claim C5: the outer driver iterates while `outer_iters < max_outer_iterations`
and not converged: it is a while-loop trace of `outerStep`, which evaluates
the model/gradient callback at the current `x`, runs exactly one sweep with
the refreshed curvature, replaces `x` with the sweep's output, adopts the
sweep's convergence flag, and increments the counter; the returned `iter`
counts the executed iterations.  `fit_sparse` instantiates the driver with
the adapter callback, whose curvature outer factor is the model matrix `X`
itself. -/
theorem outer_driver_spec {N n : ℕ} (cfg : OuterConfig n)
    (f : (Fin n → ℚ) → GradHess N n) (x₀ : Fin n → ℚ)
    (X : Fin N → Fin n → ℚ) (response : Fin N → ℚ)
    (model : (Fin N → ℚ) → ModelOut N) :
    (∃ K, K ≤ cfg.maxIter ∧
      minimize_sparse cfg f x₀ = (outerStep cfg f)^[K] ⟨x₀, false, 0⟩ ∧
      (∀ j, j < K → outerCond cfg ((outerStep cfg f)^[j] ⟨x₀, false, 0⟩)) ∧
      ¬outerCond cfg (minimize_sparse cfg f x₀) ∧
      (minimize_sparse cfg f x₀).iter = K) ∧
    (∀ st : OuterState n, outerStep cfg f st =
      ⟨(minimize_sparse_one_step (mkSweepParams cfg (f st.x) st.x)).1,
        (minimize_sparse_one_step (mkSweepParams cfg (f st.x) st.x)).2.1,
        st.iter + 1⟩) ∧
    (∀ x, (gradAndFimCallback X response model x).Houter = X) ∧
    fit_sparse X response model x₀ cfg =
      minimize_sparse cfg (gradAndFimCallback X response model) x₀ := by
  refine ⟨?_, fun st => rfl, fun x => rfl, rfl⟩
  obtain ⟨K, hK, heq, hall, hstop⟩ := outerRun_trace cfg f x₀
  refine ⟨K, hK, heq, hall, hstop, ?_⟩
  rw [heq]
  exact outerStep_iterate_iter cfg f x₀ K

/-- Witness for `outer_driver_spec` at a concrete configuration. -/
theorem outer_driver_spec_witness :
    (∃ K, K ≤ exampleOuterConfig.maxIter ∧
      minimize_sparse exampleOuterConfig exampleCallback (fun _ => 0)
        = (outerStep exampleOuterConfig exampleCallback)^[K] ⟨fun _ => 0, false, 0⟩ ∧
      (∀ j, j < K → outerCond exampleOuterConfig
        ((outerStep exampleOuterConfig exampleCallback)^[j] ⟨fun _ => 0, false, 0⟩)) ∧
      ¬outerCond exampleOuterConfig
        (minimize_sparse exampleOuterConfig exampleCallback (fun _ => 0)) ∧
      (minimize_sparse exampleOuterConfig exampleCallback (fun _ => 0)).iter = K) ∧
    (∀ st : OuterState 1, outerStep exampleOuterConfig exampleCallback st =
      ⟨(minimize_sparse_one_step
          (mkSweepParams exampleOuterConfig (exampleCallback st.x) st.x)).1,
        (minimize_sparse_one_step
          (mkSweepParams exampleOuterConfig (exampleCallback st.x) st.x)).2.1,
        st.iter + 1⟩) ∧
    (∀ x, (gradAndFimCallback exampleMatrix exampleResponse exampleModel x).Houter
      = exampleMatrix) ∧
    fit_sparse exampleMatrix exampleResponse exampleModel (fun _ => 0) exampleOuterConfig
      = minimize_sparse exampleOuterConfig
          (gradAndFimCallback exampleMatrix exampleResponse exampleModel) (fun _ => 0) :=
  outer_driver_spec exampleOuterConfig exampleCallback (fun _ => 0)
    exampleMatrix exampleResponse exampleModel

/-- Claim C10: calling the outer driver with `maximum_iterations = 0` returns
`(x_start, is_converged = false, iter = 0)` for every callback — the
gradient/Hessian callback and the sweep are never consulted — whereas the
inner sweep with a zero budget computes its flag from the zero update:
it returns `x_start`, sweep count `0`, and flag `0 < tolerance·(1+‖x‖)²`. -/
theorem zero_budget_outer_vs_inner {N n : ℕ} (cfg : OuterConfig n)
    (f : (Fin n → ℚ) → GradHess N n) (x₀ : Fin n → ℚ) (p : SweepParams N n)
    (hcfg : cfg.maxIter = 0) (hp : p.maxSweeps = 0) :
    minimize_sparse cfg f x₀ = ⟨x₀, false, 0⟩ ∧
    sweepRun p = initState n ∧
    (minimize_sparse_one_step p).1 = p.xStart ∧
    (minimize_sparse_one_step p).2.2 = 0 ∧
    (minimize_sparse_one_step p).2.1 = decide ((0 : ℚ) < convThreshold p) := by
  have h1 : minimize_sparse cfg f x₀ = ⟨x₀, false, 0⟩ := by
    unfold minimize_sparse
    rw [hcfg]
    exact whileLoop_zero _ _ _
  have h2 : sweepRun p = initState n := by
    unfold sweepRun
    rw [hp, Nat.zero_mul]
    exact whileLoop_zero _ _ _
  refine ⟨h1, h2, ?_, ?_, ?_⟩
  · funext j
    show p.xStart j + (sweepRun p).xUpdate j = p.xStart j
    rw [h2]
    exact add_zero (p.xStart j)
  · show (sweepRun p).iter / n = 0
    rw [h2]
    exact Nat.zero_div n
  · show decide ((sweepRun p).diffNormSq < convThreshold p) = _
    rw [h2]
    rfl

/-- Witness for `zero_budget_outer_vs_inner` at a concrete zero-budget
configuration. -/
theorem zero_budget_outer_vs_inner_witness :
    (zeroOuterConfig.maxIter = 0 ∧ zeroSweepParams.maxSweeps = 0) ∧
    (minimize_sparse zeroOuterConfig exampleCallback (fun _ => 0) = ⟨fun _ => 0, false, 0⟩ ∧
      sweepRun zeroSweepParams = initState 1 ∧
      (minimize_sparse_one_step zeroSweepParams).1 = zeroSweepParams.xStart ∧
      (minimize_sparse_one_step zeroSweepParams).2.2 = 0 ∧
      (minimize_sparse_one_step zeroSweepParams).2.1
        = decide ((0 : ℚ) < convThreshold zeroSweepParams)) :=
  ⟨⟨rfl, rfl⟩,
    zero_budget_outer_vs_inner zeroOuterConfig exampleCallback (fun _ => 0)
      zeroSweepParams rfl rfl⟩

end ProximalHessian
